import Mathlib

/-!
Verification of the diff-partitioning and multi-stage summarization pipeline
of the PR-Agent repository.

The pipeline core is embedded from src/tasks.py (the variant whose
summarization calls go through the containment wrapper call_llm_safe, which
is the SummarizationClient the specification describes; src/app.py is a
near-duplicate of the same stages).  External effects are modelled as
oracles passed in explicitly:

* the summarization backend is an oracle LLM : String -> Except String String
  (an error value is a raised backend exception, carrying str(e));
* the HTTP GET used by the fetch stage is an oracle
  Http : String -> Except String HttpResp (an error value is a transport
  exception; an ok value is a response with a status code and a body, and
  requests.get(...).text reads the body regardless of the status).

Python str.strip() is modelled by stripChars / pyStrip over the four ASCII
whitespace characters recognised by Char.isWhitespace; str.endswith by a
character-list suffix test; f-string interpolation by string concatenation;
"sep".join(xs) by String.intercalate.

The regular expression used by split_by_file,

  diff --git a/(.*?) b/.*?\n(.*?)(?=\ndiff --git a/|\Z)   (DOTALL, findall)

is embedded as the explicit scanner scanAux below.  findall takes the
leftmost match and resumes at the match end; every match of this pattern
starts at an occurrence of the literal "diff --git a/"; the lazy group 1
runs to the first following " b/"; the lazy ".*?\n" runs to the first
following newline; the lazy group 2 runs to the first position at which
either "\ndiff --git a/" or the end of the text follows (the lookahead is
not consumed, so the scan resumes at that position, i.e. on the "\n" that
precedes the next header).  When a header occurrence cannot be completed
(no " b/" or no newline after it), the scan resumes one character after
that occurrence.  scanAux implements exactly this with an explicit fuel
argument (the scanned suffix shrinks at every step, so s.length + 1 steps
always suffice).
-/

/-- One chat-completion backend call: either the reply text or the raised
exception rendered as a string. -/
abbrev LLM : Type := String → Except String String

/-- An HTTP response as seen through requests.get: a status code and a body.
requests.get(url).text returns the body whatever the status code is. -/
structure HttpResp where
  status : Nat
  text : String
deriving Repr, DecidableEq

/-- One HTTP GET: either a transport exception or a response. -/
abbrev Http : Type := String → Except String HttpResp

/-- FileResult, the per-file record of tasks.py (TypedDict FileResult). -/
structure FileResult where
  filename : String
  diff : String
  is_apex : Bool
  explanation : String
  review_comments : String
  business_summary : String
deriving Repr, DecidableEq

/-- PRState, the pipeline state of tasks.py (TypedDict PRState). -/
structure PRState where
  pr_url : String
  diff : String
  files : List FileResult
  dev_summary : String
  business_summary : String
deriving Repr, DecidableEq

/-- Python str.strip() on a character list: drop leading and trailing
whitespace characters. -/
def stripChars (l : List Char) : List Char :=
  ((l.dropWhile Char.isWhitespace).reverse.dropWhile Char.isWhitespace).reverse

/-- Python str.strip() on strings. -/
def pyStrip (s : String) : String :=
  (stripChars s.toList).asString

/-- Python str.endswith, as a character-list suffix test. -/
def strEndsWith (s pat : String) : Bool :=
  pat.toList.isSuffixOf s.toList

/-- tasks.py call_llm_safe: return the stripped reply content, and turn any
backend exception into the diagnostic string "Error: " ++ str(e). -/
def call_llm_safe (llm : LLM) (prompt : String) : String :=
  match llm prompt with
  | Except.ok content => pyStrip content
  | Except.error e => "Error: " ++ e

/-- tasks.py is_apex_file: filename.endswith(".cls") or
filename.endswith(".trigger"). -/
def is_apex_file (filename : String) : Bool :=
  strEndsWith filename ".cls" || strEndsWith filename ".trigger"

/-- Leftmost occurrence search: splitFirst pat s = some (pre, post) when
s = pre ++ pat ++ post and pat occurs nowhere earlier; none when pat does
not occur in s. -/
def splitFirst (pat : List Char) : List Char → Option (List Char × List Char)
  | [] => if pat = [] then some ([], []) else none
  | c :: cs =>
    if pat.isPrefixOf (c :: cs) then some ([], (c :: cs).drop pat.length)
    else (splitFirst pat cs).map (fun pr => (c :: pr.1, pr.2))

/-- The file-header marker "diff --git a/" of the split_by_file pattern. -/
def hdrMark : List Char := "diff --git a/".toList

/-- The " b/" separator between the two captured paths. -/
def bSepMark : List Char := " b/".toList

/-- A newline immediately followed by a header marker: the lookahead
alternative "\ndiff --git a/" that terminates a lazy group-2 body. -/
def nlHdrMark : List Char := '\n' :: hdrMark

/-- The scanner equivalent of re.findall on the split_by_file pattern (see
the module comment): each result pair is (group 1, group 2) of one match,
in match order.  The fuel argument only forces termination; the suffix
being scanned shrinks at every recursive call, so any fuel above the
length of the input is enough. -/
def scanAux : Nat → List Char → List (List Char × List Char)
  | 0, _ => []
  | fuel + 1, s =>
    match splitFirst hdrMark s with
    | none => []
    | some (_, afterHdr) =>
      match splitFirst bSepMark afterHdr with
      | none => scanAux fuel (hdrMark.drop 1 ++ afterHdr)
      | some (g1, afterB) =>
        match splitFirst ['\n'] afterB with
        | none => scanAux fuel (hdrMark.drop 1 ++ afterHdr)
        | some (_, bodyRest) =>
          match splitFirst nlHdrMark bodyRest with
          | none => [(g1, bodyRest)]
          | some (body, rest) => (g1, body) :: scanAux fuel (nlHdrMark ++ rest)

/-- All matches of the split_by_file pattern over a raw diff text. -/
def scanMatches (s : List Char) : List (List Char × List Char) :=
  scanAux (s.length + 1) s

/-- The record built for one regex match in split_by_file: the stored
filename is the stripped group 1, the stored diff is the stripped group 2,
and is_apex is computed from the raw (unstripped) group 1, exactly as in
the source (is_apex_file(filename) is applied to the loop variable, not to
the stripped value). -/
def mkRecord (m : List Char × List Char) : FileResult :=
  { filename := pyStrip m.1.asString
    diff := pyStrip m.2.asString
    is_apex := is_apex_file m.1.asString
    explanation := ""
    review_comments := ""
    business_summary := "" }

/-- tasks.py split_by_file: partition state.diff by the header pattern and
store one FileResult per match. -/
def split_by_file (state : PRState) : PRState :=
  { state with files := (scanMatches state.diff.toList).map mkRecord }

/-- The explanation prompt of process_files. -/
def explain_prompt (diff : String) : String := "Explain the changes:\n" ++ diff

/-- The Apex review prompt of process_files. -/
def review_prompt (diff : String) : String := "Review this Apex diff:\n" ++ diff

/-- The business summary prompt of process_files. -/
def business_prompt (diff : String) : String := "Business summary of changes:\n" ++ diff

/-- The loop body of tasks.py process_files for one file record. -/
def enrich_file (llm : LLM) (f : FileResult) : FileResult :=
  { f with
    explanation := call_llm_safe llm (explain_prompt f.diff)
    review_comments := if f.is_apex then call_llm_safe llm (review_prompt f.diff) else ""
    business_summary := call_llm_safe llm (business_prompt f.diff) }

/-- tasks.py process_files: enrich every file record, in order. -/
def process_files (llm : LLM) (state : PRState) : PRState :=
  { state with files := state.files.map (enrich_file llm) }

/-- tasks.py aggregate_summaries: join the per-file explanation blocks and
the per-file business summaries with blank lines and pass each joined text
as the sole prompt of one call_llm_safe call. -/
def aggregate_summaries (llm : LLM) (state : PRState) : PRState :=
  { state with
    dev_summary := call_llm_safe llm (String.intercalate "\n\n"
      (state.files.map (fun f => "Changes in " ++ f.filename ++ ":\n" ++ f.explanation)))
    business_summary := call_llm_safe llm (String.intercalate "\n\n"
      (state.files.map (fun f => f.business_summary))) }

/-- tasks.py fetch_pr_diff: requests.get(pr_url + ".diff").text, stored as
state.diff.  A transport exception propagates; the status code of a
received response is never inspected. -/
def fetch_pr_diff (http : Http) (state : PRState) : Except String PRState :=
  match http (state.pr_url ++ ".diff") with
  | Except.ok r => Except.ok { state with diff := r.text }
  | Except.error e => Except.error e

/-- The initial pipeline state of graph.invoke(\x7b"pr_url": pr_url\x7d): only
pr_url is set, every other field is empty. -/
def init_state (pr_url : String) : PRState :=
  { pr_url := pr_url, diff := "", files := [], dev_summary := "", business_summary := "" }

/-- The compiled linear graph of tasks.py: fetch_diff, split_by_file,
process_files, aggregate_summaries in sequence; an exception raised in a
stage aborts the run. -/
def run_pipeline (http : Http) (llm : LLM) (pr_url : String) : Except String PRState :=
  match fetch_pr_diff http (init_state pr_url) with
  | Except.error e => Except.error e
  | Except.ok s => Except.ok (aggregate_summaries llm (process_files llm (split_by_file s)))

/-- A pattern has no nonempty proper border when no proper suffix of it is
also one of its prefixes; for such patterns two occurrences cannot overlap,
which pins down the leftmost-occurrence computations below.  Checked by
evaluation for the three concrete markers. -/
def borderFreeB (pat : List Char) : Bool :=
  !pat.isEmpty &&
    (List.range pat.length).all
      (fun d => d == 0 || !(pat.drop d == pat.take (pat.length - d)))

/-- One well-separated file block of a raw diff text: the a-side path, the
b-side path and the body that follows the header line. -/
structure DiffBlock where
  path : List Char
  bPath : List Char
  body : List Char
deriving Repr, DecidableEq

/-- The raw text of a sequence of file blocks: each block contributes
"diff --git a/" ++ path ++ " b/" ++ bPath ++ "\n" ++ body, and consecutive
blocks are separated by a newline terminating the earlier body. -/
def chainText : List DiffBlock → List Char
  | [] => []
  | b :: bs =>
    hdrMark ++ (b.path ++ (bSepMark ++ (b.bPath ++ ('\n' ::
      (b.body ++ (match bs with | [] => [] | _ :: _ => '\n' :: chainText bs))))))

/-- Side conditions making a block unambiguous for the scanner: the a-side
path contains no " b/", the b-side path contains no newline, and the body
contains no header marker. -/
def blockOk (b : DiffBlock) : Prop :=
  splitFirst bSepMark b.path = none ∧
    splitFirst ['\n'] b.bPath = none ∧
    splitFirst hdrMark b.body = none

instance (b : DiffBlock) : Decidable (blockOk b) := by
  unfold blockOk; infer_instance

/-- A string neither starts nor ends with a whitespace character. -/
def noEdgeWS (s : String) : Prop :=
  (∀ c, s.toList.head? = some c → c.isWhitespace = false) ∧
    (∀ c, s.toList.getLast? = some c → c.isWhitespace = false)

example : is_apex_file "x.cls" = true := by decide

example : pyStrip "  a b \n" = "a b" := by decide

example :
    scanMatches ("diff --git a/x b/x\n+q\ndiff --git a/y b/y\n+r\n".toList) =
      [("x".toList, "+q".toList), ("y".toList, "+r\n".toList)] := by decide

example :
    scanMatches ("diff --git a/x b/x\ndiff --git a/y b/y\n".toList) =
      [("x".toList, "diff --git a/y b/y\n".toList)] := by decide

/-! ## Properties of the leftmost-occurrence search -/

theorem splitFirst_some_eq {pat : List Char} :
    ∀ {s pre post : List Char}, splitFirst pat s = some (pre, post) →
      s = pre ++ pat ++ post := by
  intro s
  induction s with
  | nil =>
    intro pre post h
    by_cases hp : pat = []
    · simp [splitFirst, hp] at h
      simp [h.1, h.2, hp]
    · simp [splitFirst, hp] at h
  | cons c cs ih =>
    intro pre post h
    simp only [splitFirst] at h
    by_cases hp : pat.isPrefixOf (c :: cs)
    · rw [if_pos hp] at h
      obtain ⟨t, ht⟩ := List.isPrefixOf_iff_prefix.mp hp
      have hdrop : (c :: cs).drop pat.length = t := by
        rw [← ht]; exact List.drop_left pat t
      simp only [Option.some.injEq, Prod.mk.injEq] at h
      rw [← h.1, ← h.2, hdrop, ← ht]
      simp
    · rw [if_neg hp] at h
      rcases hs : splitFirst pat cs with _ | ⟨p1, p2⟩
      · rw [hs] at h; simp at h
      · rw [hs] at h
        simp only [Option.map_some', Option.some.injEq, Prod.mk.injEq] at h
        have hcs := ih hs
        rw [← h.1, ← h.2, hcs]
        simp

theorem splitFirst_append_ne_none (pat : List Char) :
    ∀ (x y : List Char), splitFirst pat (x ++ pat ++ y) ≠ none := by
  intro x
  induction x with
  | nil =>
    intro y
    cases hp : pat with
    | nil => cases y <;> simp [splitFirst, List.isPrefixOf]
    | cons p ps =>
      have hpre : (p :: ps).isPrefixOf ((p :: ps) ++ y) = true :=
        List.isPrefixOf_iff_prefix.mpr (List.prefix_append _ _)
      simp [splitFirst, hpre]
  | cons c x' ih =>
    intro y h
    rw [List.append_assoc, List.cons_append] at h
    simp only [splitFirst] at h
    by_cases hp : pat.isPrefixOf (c :: (x' ++ (pat ++ y)))
    · rw [if_pos hp] at h; simp at h
    · rw [if_neg hp] at h
      rw [Option.map_eq_none'] at h
      rw [← List.append_assoc] at h
      exact ih y h

theorem borderFreeB_spec {pat : List Char} (h : borderFreeB pat = true) :
    pat ≠ [] ∧ ∀ d, 0 < d → d < pat.length →
      pat.drop d ≠ pat.take (pat.length - d) := by
  unfold borderFreeB at h
  rw [Bool.and_eq_true] at h
  constructor
  · intro hnil
    rw [hnil] at h
    simp at h
  · intro d hd0 hdl heq
    have := (List.all_eq_true.mp h.2) d (List.mem_range.mpr hdl)
    rcases Bool.or_eq_true _ _ |>.mp this with h1 | h2
    · simp at h1
      omega
    · simp only [Bool.not_eq_true', beq_eq_false_iff_ne] at h2
      exact h2 heq

theorem splitFirst_append_mid {pat : List Char} (hbf : borderFreeB pat = true) :
    ∀ (a b : List Char), splitFirst pat a = none →
      splitFirst pat (a ++ pat ++ b) = some (a, b) := by
  obtain ⟨hne, hbord⟩ := borderFreeB_spec hbf
  intro a
  induction a with
  | nil =>
    intro b _
    obtain ⟨p, ps, hp⟩ := List.exists_cons_of_ne_nil hne
    subst hp
    have hpre : (p :: ps).isPrefixOf ((p :: ps) ++ b) = true :=
      List.isPrefixOf_iff_prefix.mpr (List.prefix_append _ _)
    simp only [List.nil_append, List.cons_append]
    simp only [splitFirst]
    rw [← List.cons_append, if_pos hpre, List.drop_left]
  | cons c a' ih =>
    intro b ha
    simp only [splitFirst] at ha
    by_cases hp : pat.isPrefixOf (c :: a')
    · rw [if_pos hp] at ha; simp at ha
    · rw [if_neg hp] at ha
      rw [Option.map_eq_none'] at ha
      have hs : (c :: a') ++ pat ++ b = c :: (a' ++ (pat ++ b)) := by simp
      rw [hs]
      have hnp : ¬ pat.isPrefixOf (c :: (a' ++ (pat ++ b))) = true := by
        intro hcon
        obtain ⟨t, ht⟩ := List.isPrefixOf_iff_prefix.mp hcon
        have hform : pat ++ t = (c :: a') ++ (pat ++ b) := by
          rw [ht]; simp
        by_cases hlen : pat.length ≤ (c :: a').length
        · have htake : ((c :: a') ++ (pat ++ b)).take pat.length =
              (c :: a').take pat.length := by
            rw [List.take_append_eq_append_take]
            have h0 : pat.length - (c :: a').length = 0 := by omega
            rw [h0]
            simp
          have hpatA : pat = (c :: a').take pat.length := by
            have h1 : (pat ++ t).take pat.length = pat := List.take_left _ _
            rw [hform, htake] at h1
            exact h1.symm
          have hpA : pat.isPrefixOf (c :: a') = true := by
            apply List.isPrefixOf_iff_prefix.mpr
            refine ⟨(c :: a').drop pat.length, ?_⟩
            nth_rewrite 1 [hpatA]
            exact List.take_append_drop _ _
          exact hp hpA
        · push_neg at hlen
          have hpatEq : pat = (c :: a') ++ pat.take (pat.length - (c :: a').length) := by
            have h1 : (pat ++ t).take pat.length = pat := List.take_left _ _
            rw [hform] at h1
            rw [List.take_append_eq_append_take] at h1
            rw [List.take_of_length_le (by omega)] at h1
            have h3 : (pat ++ b).take (pat.length - (c :: a').length) =
                pat.take (pat.length - (c :: a').length) := by
              rw [List.take_append_eq_append_take]
              have h0 : pat.length - (c :: a').length - pat.length = 0 := by omega
              rw [h0]
              simp
            rw [h3] at h1
            exact h1.symm
          have hdropEq : pat.drop (c :: a').length =
              pat.take (pat.length - (c :: a').length) := by
            conv_lhs => rw [hpatEq]
            exact List.drop_left _ _
          exact hbord (c :: a').length (by simp) hlen hdropEq
      simp only [splitFirst]
      rw [if_neg hnp]
      rw [← List.append_assoc, ih b ha]
      simp

theorem splitFirst_nlHdr_none {t : List Char} (h : splitFirst hdrMark t = none) :
    splitFirst nlHdrMark t = none := by
  rcases hs : splitFirst nlHdrMark t with _ | ⟨x, y⟩
  · rfl
  · exfalso
    have ht := splitFirst_some_eq hs
    have ht2 : t = (x ++ ['\n']) ++ hdrMark ++ y := by
      rw [ht]
      simp [nlHdrMark]
    rw [ht2] at h
    exact splitFirst_append_ne_none hdrMark _ _ h

theorem scanAux_of_no_hdr {f : Nat} {s : List Char}
    (h : splitFirst hdrMark s = none) : scanAux (f + 1) s = [] := by
  simp [scanAux, h]

theorem borderFreeB_hdrMark : borderFreeB hdrMark = true := by decide

theorem borderFreeB_bSepMark : borderFreeB bSepMark = true := by decide

theorem borderFreeB_nl : borderFreeB ['\n'] = true := by decide

theorem borderFreeB_nlHdrMark : borderFreeB nlHdrMark = true := by decide

theorem scan_step_core (f : Nat) (junk p q R : List Char)
    (hj : splitFirst hdrMark junk = none)
    (hp : splitFirst bSepMark p = none)
    (hq : splitFirst ['\n'] q = none) :
    scanAux (f + 1) (junk ++ (hdrMark ++ (p ++ (bSepMark ++ (q ++ ('\n' :: R)))))) =
      match splitFirst nlHdrMark R with
      | none => [(p, R)]
      | some (body, rest) => (p, body) :: scanAux f (nlHdrMark ++ rest) := by
  have e1 : splitFirst hdrMark
      (junk ++ (hdrMark ++ (p ++ (bSepMark ++ (q ++ ('\n' :: R)))))) =
      some (junk, p ++ (bSepMark ++ (q ++ ('\n' :: R)))) := by
    rw [← List.append_assoc]
    exact splitFirst_append_mid borderFreeB_hdrMark _ _ hj
  have e2 : splitFirst bSepMark (p ++ (bSepMark ++ (q ++ ('\n' :: R)))) =
      some (p, q ++ ('\n' :: R)) := by
    rw [← List.append_assoc]
    exact splitFirst_append_mid borderFreeB_bSepMark _ _ hp
  have e3 : splitFirst ['\n'] (q ++ ('\n' :: R)) = some (q, R) := by
    have hform : q ++ ('\n' :: R) = q ++ ['\n'] ++ R := by simp
    rw [hform]
    exact splitFirst_append_mid borderFreeB_nl _ _ hq
  rcases hnl : splitFirst nlHdrMark R with _ | ⟨body, rest⟩ <;>
    simp [scanAux, e1, e2, e3, hnl]

theorem scan_step_last (f : Nat) (junk p q R : List Char)
    (hj : splitFirst hdrMark junk = none)
    (hp : splitFirst bSepMark p = none)
    (hq : splitFirst ['\n'] q = none)
    (hnl : splitFirst nlHdrMark R = none) :
    scanAux (f + 1) (junk ++ (hdrMark ++ (p ++ (bSepMark ++ (q ++ ('\n' :: R)))))) =
      [(p, R)] := by
  rw [scan_step_core f junk p q R hj hp hq, hnl]

theorem scan_step_cons (f : Nat) (junk p q R body rest : List Char)
    (hj : splitFirst hdrMark junk = none)
    (hp : splitFirst bSepMark p = none)
    (hq : splitFirst ['\n'] q = none)
    (hnl : splitFirst nlHdrMark R = some (body, rest)) :
    scanAux (f + 1) (junk ++ (hdrMark ++ (p ++ (bSepMark ++ (q ++ ('\n' :: R)))))) =
      (p, body) :: scanAux f (nlHdrMark ++ rest) := by
  rw [scan_step_core f junk p q R hj hp hq, hnl]

theorem scan_chain :
    ∀ (bs : List DiffBlock) (fuel : Nat) (junk : List Char),
      splitFirst hdrMark junk = none →
      (∀ b ∈ bs, blockOk b) →
      (junk ++ chainText bs).length < fuel →
      scanAux fuel (junk ++ chainText bs) = bs.map (fun b => (b.path, b.body)) := by
  intro bs
  induction bs with
  | nil =>
    intro fuel junk hj _ hlen
    cases fuel with
    | zero => omega
    | succ f =>
      simp only [chainText, List.append_nil, List.map_nil]
      exact scanAux_of_no_hdr hj
  | cons b bs' ih =>
    intro fuel junk hj hok hlen
    cases fuel with
    | zero => omega
    | succ f =>
      obtain ⟨hbp, hbq, hbody⟩ := hok b (by simp)
      have hok' : ∀ x ∈ bs', blockOk x := fun x hx => hok x (by simp [hx])
      cases bs' with
      | nil =>
        have hct : chainText [b] =
            hdrMark ++ (b.path ++ (bSepMark ++ (b.bPath ++ ('\n' :: b.body)))) := by
          simp [chainText]
        rw [hct, scan_step_last f junk b.path b.bPath b.body hj hbp hbq
          (splitFirst_nlHdr_none hbody)]
        simp
      | cons b2 bs2 =>
        have hct : chainText (b :: b2 :: bs2) =
            hdrMark ++ (b.path ++ (bSepMark ++ (b.bPath ++ ('\n' ::
              (b.body ++ ('\n' :: chainText (b2 :: bs2))))))) := rfl
        have hZ : ∃ Z, chainText (b2 :: bs2) = hdrMark ++ Z := ⟨_, rfl⟩
        obtain ⟨Z, hZ⟩ := hZ
        have e4 : splitFirst nlHdrMark (b.body ++ ('\n' :: chainText (b2 :: bs2))) =
            some (b.body, Z) := by
          have hform : b.body ++ ('\n' :: chainText (b2 :: bs2)) =
              b.body ++ nlHdrMark ++ Z := by
            rw [hZ]
            simp [nlHdrMark]
          rw [hform]
          exact splitFirst_append_mid borderFreeB_nlHdrMark _ _
            (splitFirst_nlHdr_none hbody)
        rw [hct, scan_step_cons f junk b.path b.bPath _ b.body Z hj hbp hbq e4]
        have hrest : nlHdrMark ++ Z = ['\n'] ++ chainText (b2 :: bs2) := by
          rw [hZ]
          simp [nlHdrMark]
        have hlen2 : (['\n'] ++ chainText (b2 :: bs2)).length < f := by
          have h13 : hdrMark.length = 13 := by decide
          have h3 : bSepMark.length = 3 := by decide
          rw [hct] at hlen
          simp only [List.length_append, List.length_cons, List.length_nil,
            h13, h3] at hlen ⊢
          omega
        rw [hrest, ih f ['\n'] (by decide) hok' hlen2]
        simp

theorem scanMatches_of_no_hdr {s : List Char} (h : splitFirst hdrMark s = none) :
    scanMatches s = [] :=
  scanAux_of_no_hdr h

theorem scanMatches_chain (bs : List DiffBlock) (junk : List Char)
    (hj : splitFirst hdrMark junk = none) (hok : ∀ b ∈ bs, blockOk b) :
    scanMatches (junk ++ chainText bs) = bs.map (fun b => (b.path, b.body)) :=
  scan_chain bs ((junk ++ chainText bs).length + 1) junk hj hok (by omega)

/-! ## Claim C1 -/

/-- Claim C1, counterexample: the raw diff text consisting of two
back-to-back valid header lines "diff --git a/x b/x" and
"diff --git a/y b/y" (each of the claimed form, N = 2) partitions into a
single FileRecord, not two: the lazy group 2 of the first match cannot
stop in front of the second header because that header is not preceded by
a newline at the point where the body starts, so it swallows the second
header line into the first body. -/
theorem split_by_file_two_headers_one_record :
    ("diff --git a/x b/x\ndiff --git a/y b/y\n" : String) =
        "diff --git a/x b/x\n" ++ "diff --git a/y b/y\n" ∧
      (split_by_file
          { pr_url := ""
            diff := "diff --git a/x b/x\ndiff --git a/y b/y\n"
            files := []
            dev_summary := ""
            business_summary := "" }).files =
        [{ filename := "x"
           diff := "diff --git a/y b/y"
           is_apex := false
           explanation := ""
           review_comments := ""
           business_summary := "" }] := by
  constructor
  · rfl
  · decide

/-- Claim C1, amended: a raw diff text with no occurrence of the header
marker "diff --git a/" partitions to the empty sequence rather than
failing.  A text made of leading junk (free of the marker) followed by N
well-separated header blocks: each block "diff --git a/" ++ path ++ " b/"
++ bPath ++ "\n" ++ body, where the a-side path contains no " b/", the
b-side path contains no newline, the body contains no header marker, and
consecutive blocks are separated by a newline ending the earlier body,
partitions into exactly N FileRecords in header-appearance order: the i-th
record stores the trimmed i-th a-side path as filename and the trimmed
i-th body as diffText, and the stored filename is non-empty whenever the
trimmed a-side capture is non-empty.  (The original claim of exactly N
records for every text with N valid header lines fails when a header is
not preceded by a newline-terminated body, as in the counterexample: such
adjacent headers are merged into one record.) -/
theorem split_by_file_partition_amended :
    (∀ st : PRState, splitFirst hdrMark st.diff.toList = none →
        (split_by_file st).files = []) ∧
    (∀ (st : PRState) (junk : List Char) (bs : List DiffBlock),
        splitFirst hdrMark junk = none →
        (∀ b ∈ bs, blockOk b) →
        st.diff.toList = junk ++ chainText bs →
        (split_by_file st).files = bs.map (fun b =>
          { filename := (stripChars b.path).asString
            diff := (stripChars b.body).asString
            is_apex := is_apex_file b.path.asString
            explanation := ""
            review_comments := ""
            business_summary := "" }) ∧
        ∀ b ∈ bs, stripChars b.path ≠ [] → (stripChars b.path).asString ≠ "") := by
  constructor
  · intro st h
    show (scanMatches st.diff.toList).map mkRecord = []
    rw [scanMatches_of_no_hdr h]
    rfl
  · intro st junk bs hj hok hdiff
    constructor
    · show (scanMatches st.diff.toList).map mkRecord = _
      rw [hdiff, scanMatches_chain bs junk hj hok, List.map_map]
      rfl
    · intro b _ hne hcon
      exact hne (congrArg String.data hcon)

/-- Claim C1, witness: the amended partition theorem applied to a concrete
two-block diff text with empty junk. -/
theorem split_by_file_partition_amended_witness :
    (split_by_file
        { pr_url := ""
          diff := "diff --git a/x.cls b/x.cls\n+old\ndiff --git a/y.txt b/y.txt\n+new"
          files := []
          dev_summary := ""
          business_summary := "" }).files =
      [{ filename := "x.cls"
         diff := "+old"
         is_apex := true
         explanation := ""
         review_comments := ""
         business_summary := "" },
       { filename := "y.txt"
         diff := "+new"
         is_apex := false
         explanation := ""
         review_comments := ""
         business_summary := "" }] := by
  have h := (split_by_file_partition_amended.2
    { pr_url := ""
      diff := "diff --git a/x.cls b/x.cls\n+old\ndiff --git a/y.txt b/y.txt\n+new"
      files := []
      dev_summary := ""
      business_summary := "" }
    []
    [⟨"x.cls".toList, "x.cls".toList, "+old".toList⟩,
     ⟨"y.txt".toList, "y.txt".toList, "+new".toList⟩]
    (by decide) (by decide) (by decide)).1
  rw [h]
  decide

/-! ## Claim C6 -/

/-- Claim C6: partitioning the specific raw diff
"diff --git a/x.cls b/x.cls\n@@ -1,1 +1,1 @@\n-old\n+new\ndiff --git
a/y.txt b/y.txt\n@@ -1,1 +1,1 @@\n-a\n+b\n" yields exactly two records:
x.cls (special, body "@@ -1,1 +1,1 @@\n-old\n+new") and y.txt
(non-special, body "@@ -1,1 +1,1 @@\n-a\n+b"). -/
theorem split_by_file_round_trip :
    (split_by_file
        { pr_url := ""
          diff := "diff --git a/x.cls b/x.cls\n@@ -1,1 +1,1 @@\n-old\n+new\ndiff --git a/y.txt b/y.txt\n@@ -1,1 +1,1 @@\n-a\n+b\n"
          files := []
          dev_summary := ""
          business_summary := "" }).files =
      [{ filename := "x.cls"
         diff := "@@ -1,1 +1,1 @@\n-old\n+new"
         is_apex := true
         explanation := ""
         review_comments := ""
         business_summary := "" },
       { filename := "y.txt"
         diff := "@@ -1,1 +1,1 @@\n-a\n+b"
         is_apex := false
         explanation := ""
         review_comments := ""
         business_summary := "" }] := by
  decide

/-! ## Claim C4 -/

/-- Claim C4, counterexample: for the raw diff
"diff --git a/x.cls  b/x.cls\n+z\n" (two spaces before " b/"), the lazy
group 1 capture is "x.cls " with a trailing space; the stored filename is
the trimmed "x.cls", which does end in ".cls", yet the stored flag is
false because the source computes is_apex_file on the raw, untrimmed
capture. -/
theorem is_apex_flag_trailing_space_cex :
    (split_by_file
        { pr_url := ""
          diff := "diff --git a/x.cls  b/x.cls\n+z\n"
          files := []
          dev_summary := ""
          business_summary := "" }).files =
      [{ filename := "x.cls"
         diff := "+z"
         is_apex := false
         explanation := ""
         review_comments := ""
         business_summary := "" }] ∧
      is_apex_file "x.cls" = true := by
  constructor
  · decide
  · decide

/-- Claim C4, amended: the isSpecialCategory flag of every record produced
by partition is computed from the raw group-1 capture before trimming: the
flag is true iff the raw capture ends in ".cls" or ".trigger".  The stored
filename is the trimmed capture, so when the raw capture carries no
surrounding whitespace (trimming it changes nothing) the flag does agree
with the stored filename, and the original iff holds; a capture with
trailing whitespace breaks it (see the counterexample). -/
theorem is_apex_from_raw_capture :
    ∀ (st : PRState) (i : Nat)
      (hm : i < (scanMatches st.diff.toList).length)
      (hf : i < (split_by_file st).files.length),
      ((split_by_file st).files.get ⟨i, hf⟩).is_apex =
          is_apex_file ((scanMatches st.diff.toList).get ⟨i, hm⟩).1.asString ∧
        ((split_by_file st).files.get ⟨i, hf⟩).filename =
          pyStrip ((scanMatches st.diff.toList).get ⟨i, hm⟩).1.asString ∧
        (stripChars ((scanMatches st.diff.toList).get ⟨i, hm⟩).1 =
            ((scanMatches st.diff.toList).get ⟨i, hm⟩).1 →
          ((split_by_file st).files.get ⟨i, hf⟩).is_apex =
            is_apex_file ((split_by_file st).files.get ⟨i, hf⟩).filename) := by
  intro st i hm hf
  have hfiles : (split_by_file st).files = (scanMatches st.diff.toList).map mkRecord := rfl
  have hget : (split_by_file st).files.get ⟨i, hf⟩ =
      mkRecord ((scanMatches st.diff.toList).get ⟨i, hm⟩) := by
    simp [hfiles]
  refine ⟨by rw [hget]; rfl, by rw [hget]; rfl, ?_⟩
  intro hstrip
  rw [hget]
  show is_apex_file _ = is_apex_file (pyStrip _)
  have hps : pyStrip ((scanMatches st.diff.toList).get ⟨i, hm⟩).1.asString =
      ((scanMatches st.diff.toList).get ⟨i, hm⟩).1.asString := by
    show (stripChars _).asString = _
    rw [show ((scanMatches st.diff.toList).get ⟨i, hm⟩).1.asString.toList =
      ((scanMatches st.diff.toList).get ⟨i, hm⟩).1 from rfl, hstrip]
  rw [hps]

/-- Claim C4, witness: the amended theorem applied at a concrete
single-record partition with a whitespace-free capture. -/
theorem is_apex_from_raw_capture_witness :
    ((split_by_file
        { pr_url := ""
          diff := "diff --git a/a.cls b/a.cls\n+1\n"
          files := []
          dev_summary := ""
          business_summary := "" }).files.get ⟨0, by decide⟩).is_apex = true := by
  have h := (is_apex_from_raw_capture
    { pr_url := ""
      diff := "diff --git a/a.cls b/a.cls\n+1\n"
      files := []
      dev_summary := ""
      business_summary := "" } 0 (by decide) (by decide)).1
  rw [h]
  decide

/-! ## Claim C7 -/

/-- Claim C7: for every FileRecord whose isSpecialCategory flag is false,
the reviewComments field equals the empty string after enrichment, for
every possible backend oracle. -/
theorem review_comments_empty_for_non_apex :
    ∀ (llm : LLM) (st : PRState) (i : Nat)
      (hi : i < st.files.length) (hi2 : i < (process_files llm st).files.length),
      (st.files.get ⟨i, hi⟩).is_apex = false →
      ((process_files llm st).files.get ⟨i, hi2⟩).review_comments = "" := by
  intro llm st i hi hi2 h
  have hfiles : (process_files llm st).files = st.files.map (enrich_file llm) := rfl
  have hget : (process_files llm st).files.get ⟨i, hi2⟩ =
      enrich_file llm (st.files.get ⟨i, hi⟩) := by
    simp [hfiles]
  rw [hget]
  show (if (st.files.get ⟨i, hi⟩).is_apex then _ else "") = ""
  rw [h]
  simp

/-- Claim C7, witness: a non-special file keeps an empty reviewComments
field even when the backend would answer every prompt. -/
theorem review_comments_empty_for_non_apex_witness :
    ((process_files (fun _ => Except.ok "SOME REVIEW TEXT")
        { pr_url := ""
          diff := ""
          files := [{ filename := "a.txt"
                      diff := "+1"
                      is_apex := false
                      explanation := ""
                      review_comments := ""
                      business_summary := "" }]
          dev_summary := ""
          business_summary := "" }).files.get ⟨0, by decide⟩).review_comments = "" := by
  exact review_comments_empty_for_non_apex (fun _ => Except.ok "SOME REVIEW TEXT")
    { pr_url := ""
      diff := ""
      files := [{ filename := "a.txt"
                  diff := "+1"
                  is_apex := false
                  explanation := ""
                  review_comments := ""
                  business_summary := "" }]
      dev_summary := ""
      business_summary := "" } 0 (by decide) (by decide) (by decide)

/-! ## Claim C8 -/

/-- Claim C8: every stage preserves what earlier stages wrote.  The
partition stage keeps pr_url and the raw diff; the enrichment stage keeps
pr_url, the raw diff, the length and order of the files sequence, and each
record's filename, diffText and isSpecialCategory flag; the aggregation
stage keeps pr_url, the raw diff and the files sequence unchanged; a
successful fetch writes only the raw diff, keeping every other field. -/
theorem stages_preserve_earlier_fields :
    (∀ st : PRState, (split_by_file st).pr_url = st.pr_url ∧
        (split_by_file st).diff = st.diff) ∧
    (∀ (llm : LLM) (st : PRState), (process_files llm st).pr_url = st.pr_url ∧
        (process_files llm st).diff = st.diff ∧
        (process_files llm st).files.length = st.files.length) ∧
    (∀ (llm : LLM) (st : PRState) (i : Nat)
        (hi : i < st.files.length) (hi2 : i < (process_files llm st).files.length),
        ((process_files llm st).files.get ⟨i, hi2⟩).filename =
            (st.files.get ⟨i, hi⟩).filename ∧
          ((process_files llm st).files.get ⟨i, hi2⟩).diff =
            (st.files.get ⟨i, hi⟩).diff ∧
          ((process_files llm st).files.get ⟨i, hi2⟩).is_apex =
            (st.files.get ⟨i, hi⟩).is_apex) ∧
    (∀ (llm : LLM) (st : PRState), (aggregate_summaries llm st).pr_url = st.pr_url ∧
        (aggregate_summaries llm st).diff = st.diff ∧
        (aggregate_summaries llm st).files = st.files) ∧
    (∀ (http : Http) (st st2 : PRState), fetch_pr_diff http st = Except.ok st2 →
        st2.pr_url = st.pr_url ∧ st2.files = st.files ∧
          st2.dev_summary = st.dev_summary ∧
          st2.business_summary = st.business_summary) := by
  refine ⟨fun st => ⟨rfl, rfl⟩, fun llm st => ⟨rfl, rfl, by simp [process_files]⟩,
    ?_, fun llm st => ⟨rfl, rfl, rfl⟩, ?_⟩
  · intro llm st i hi hi2
    have hget : (process_files llm st).files.get ⟨i, hi2⟩ =
        enrich_file llm (st.files.get ⟨i, hi⟩) := by
      simp [show (process_files llm st).files = st.files.map (enrich_file llm) from rfl]
    rw [hget]
    exact ⟨rfl, rfl, rfl⟩
  · intro http st st2 h
    unfold fetch_pr_diff at h
    rcases hh : http (st.pr_url ++ ".diff") with e | r
    · rw [hh] at h
      simp at h
    · rw [hh] at h
      simp only [Except.ok.injEq] at h
      rw [← h]
      exact ⟨rfl, rfl, rfl, rfl⟩

/-- Claim C8, witness: the per-record preservation part applied to a
concrete one-file state and oracle. -/
theorem stages_preserve_earlier_fields_witness :
    ((process_files (fun _ => Except.ok "out")
        { pr_url := "u"
          diff := "d"
          files := [{ filename := "f.cls"
                      diff := "+2"
                      is_apex := true
                      explanation := ""
                      review_comments := ""
                      business_summary := "" }]
          dev_summary := ""
          business_summary := "" }).files.get ⟨0, by decide⟩).filename = "f.cls" := by
  have h := (stages_preserve_earlier_fields.2.2.1 (fun _ => Except.ok "out")
    { pr_url := "u"
      diff := "d"
      files := [{ filename := "f.cls"
                  diff := "+2"
                  is_apex := true
                  explanation := ""
                  review_comments := ""
                  business_summary := "" }]
      dev_summary := ""
      business_summary := "" } 0 (by decide) (by decide)).1
  rw [h]
  rfl

/-! ## Claim C5 -/

/-- Claim C5: the developer-summary input is exactly the blank-line-joined
concatenation of "Changes in filename:\nexplanation" blocks in file order,
and that joined text is the sole prompt passed to the backend for the
developer summary; on the concrete two-record instance with filenames
a.txt, b.txt and explanations E1, E2 the joined text is
"Changes in a.txt:\nE1\n\nChanges in b.txt:\nE2". -/
theorem aggregate_dev_prompt_is_joined_blocks :
    (∀ (llm : LLM) (st : PRState),
        (aggregate_summaries llm st).dev_summary = call_llm_safe llm
          (String.intercalate "\n\n" (st.files.map
            (fun f => "Changes in " ++ f.filename ++ ":\n" ++ f.explanation)))) ∧
      String.intercalate "\n\n"
        (([{ filename := "a.txt"
             diff := ""
             is_apex := false
             explanation := "E1"
             review_comments := ""
             business_summary := "" },
           { filename := "b.txt"
             diff := ""
             is_apex := false
             explanation := "E2"
             review_comments := ""
             business_summary := "" }] : List FileResult).map
          (fun f => "Changes in " ++ f.filename ++ ":\n" ++ f.explanation)) =
        "Changes in a.txt:\nE1\n\nChanges in b.txt:\nE2" := by
  exact ⟨fun llm st => rfl, by decide⟩

/-! ## Claim C9 -/

/-- Claim C9: when the files sequence is empty, both joined texts are the
empty string and the backend summarization calls still happen: each final
summary is the call_llm_safe result for the empty prompt, so the outcome
still depends on the backend answer for "" rather than being
short-circuited to an empty summary. -/
theorem aggregate_empty_files_still_calls :
    ∀ (llm : LLM) (st : PRState), st.files = [] →
      String.intercalate "\n\n" (st.files.map
          (fun f => "Changes in " ++ f.filename ++ ":\n" ++ f.explanation)) = "" ∧
        String.intercalate "\n\n" (st.files.map (fun f => f.business_summary)) = "" ∧
        (aggregate_summaries llm st).dev_summary = call_llm_safe llm "" ∧
        (aggregate_summaries llm st).business_summary = call_llm_safe llm "" := by
  intro llm st h
  refine ⟨by rw [h]; rfl, by rw [h]; rfl, ?_, ?_⟩
  · show call_llm_safe llm _ = call_llm_safe llm ""
    rw [h]
    rfl
  · show call_llm_safe llm _ = call_llm_safe llm ""
    rw [h]
    rfl

/-- Claim C9, witness: with zero files and a backend answering " hi " to
the empty prompt, the developer summary is the stripped backend answer,
showing the call was made. -/
theorem aggregate_empty_files_still_calls_witness :
    (aggregate_summaries (fun _ => Except.ok " hi ")
        { pr_url := ""
          diff := ""
          files := []
          dev_summary := ""
          business_summary := "" }).dev_summary = "hi" := by
  have h := (aggregate_empty_files_still_calls (fun _ => Except.ok " hi ")
    { pr_url := ""
      diff := ""
      files := []
      dev_summary := ""
      business_summary := "" } rfl).2.2.1
  rw [h]
  decide

/-! ## Claim C10 -/

theorem head_dropWhile_false {α : Type} {p : α → Bool} {l : List α} {c : α}
    (h : (l.dropWhile p).head? = some c) : p c = false := by
  have hw := List.head?_dropWhile_not p l
  rw [h] at hw
  exact hw

theorem getLast_dropWhile_of_ne_nil {α : Type} {p : α → Bool} {l : List α}
    (h : l.dropWhile p ≠ []) : (l.dropWhile p).getLast? = l.getLast? := by
  induction l with
  | nil => simp at h
  | cons a t ih =>
    by_cases hpa : p a
    · rw [List.dropWhile_cons_of_pos hpa] at h ⊢
      have ht : t ≠ [] := by
        intro he
        rw [he] at h
        simp at h
      rw [ih h]
      obtain ⟨b, t2, hbt⟩ := List.exists_cons_of_ne_nil ht
      rw [hbt]
      simp
    · rw [List.dropWhile_cons_of_neg hpa]

theorem pyStrip_noEdgeWS (t : String) : noEdgeWS (pyStrip t) := by
  constructor
  · intro c hc
    have hh : (stripChars t.toList).head? = some c := hc
    rw [stripChars, List.head?_reverse] at hh
    have hne : (t.toList.dropWhile Char.isWhitespace).reverse.dropWhile
        Char.isWhitespace ≠ [] := by
      intro he
      rw [he] at hh
      simp at hh
    rw [getLast_dropWhile_of_ne_nil hne, List.getLast?_reverse] at hh
    exact head_dropWhile_false hh
  · intro c hc
    have hh : (stripChars t.toList).getLast? = some c := hc
    rw [stripChars, List.getLast?_reverse] at hh
    exact head_dropWhile_false hh

/-- Claim C10: whenever a backend call succeeds, the stored text is the
backend output with leading and trailing whitespace stripped, so it
neither starts nor ends with whitespace; in particular the explanation
field written by enrichment is the stripped backend reply to the
explanation prompt. -/
theorem stored_fields_are_stripped :
    (∀ (llm : LLM) (p t : String), llm p = Except.ok t →
        call_llm_safe llm p = pyStrip t ∧ noEdgeWS (call_llm_safe llm p)) ∧
    (∀ (llm : LLM) (st : PRState) (i : Nat)
        (hi : i < st.files.length) (hi2 : i < (process_files llm st).files.length)
        (t : String),
        llm (explain_prompt (st.files.get ⟨i, hi⟩).diff) = Except.ok t →
        ((process_files llm st).files.get ⟨i, hi2⟩).explanation = pyStrip t) := by
  constructor
  · intro llm p t h
    have hc : call_llm_safe llm p = pyStrip t := by
      unfold call_llm_safe
      rw [h]
    exact ⟨hc, by rw [hc]; exact pyStrip_noEdgeWS t⟩
  · intro llm st i hi hi2 t h
    have hget : (process_files llm st).files.get ⟨i, hi2⟩ =
        enrich_file llm (st.files.get ⟨i, hi⟩) := by
      simp [show (process_files llm st).files = st.files.map (enrich_file llm) from rfl]
    rw [hget]
    show call_llm_safe llm (explain_prompt _) = pyStrip t
    unfold call_llm_safe
    rw [h]

/-- Claim C10, witness: a successful backend reply with surrounding
whitespace is stored stripped. -/
theorem stored_fields_are_stripped_witness :
    call_llm_safe (fun _ => Except.ok "  padded \n") "x" = "padded" := by
  have h := (stored_fields_are_stripped.1 (fun _ => Except.ok "  padded \n")
    "x" "  padded \n" rfl).1
  rw [h]
  decide

/-! ## Claim C3 -/

/-- Claim C3, counterexample: an HTTP oracle answering every GET with a
status 404 response whose body happens to contain a diff header does not
fail the pipeline: the run returns a success result and the files
sequence is populated with one record, because requests.get(...).text is
read without ever inspecting the status code.  This refutes the claim
that a non-success HTTP status propagates as a pipeline-fatal error with
files never populated. -/
theorem fetch_non_success_status_not_fatal :
    (run_pipeline (fun _ => Except.ok { status := 404, text := "diff --git a/p b/q\n+z\n" })
        (fun _ => Except.ok "S") "u").toOption.map (fun s => s.files.length) =
      some 1 := by
  decide

/-- Claim C3, amended: the fetch stage retrieves sourceReference ++
".diff" and any transport error propagates as a pipeline-fatal error with
no retry: the run returns exactly that error and no state (so the files
sequence is never populated).  A non-success HTTP status, however, is not
an error: the response body is stored as the raw diff whatever the status
code is, and the pipeline proceeds normally on it. -/
theorem fetch_failure_amended :
    (∀ (http : Http) (llm : LLM) (url e : String),
        http (url ++ ".diff") = Except.error e →
        run_pipeline http llm url = Except.error e) ∧
    (∀ (http : Http) (llm : LLM) (url : String) (r : HttpResp),
        http (url ++ ".diff") = Except.ok r →
        run_pipeline http llm url =
          Except.ok (aggregate_summaries llm (process_files llm (split_by_file
            { pr_url := url
              diff := r.text
              files := []
              dev_summary := ""
              business_summary := "" })))) := by
  constructor
  · intro http llm url e h
    unfold run_pipeline fetch_pr_diff init_state
    rw [show ({ pr_url := url, diff := "", files := [], dev_summary := "", business_summary := "" } : PRState).pr_url = url from rfl, h]
  · intro http llm url r h
    unfold run_pipeline fetch_pr_diff init_state
    rw [show ({ pr_url := url, diff := "", files := [], dev_summary := "", business_summary := "" } : PRState).pr_url = url from rfl, h]

/-- Claim C3, witness: a transport failure aborts the run with exactly the
transport error. -/
theorem fetch_failure_amended_witness :
    run_pipeline (fun _ => Except.error "connection refused")
        (fun _ => Except.ok "S") "u" = Except.error "connection refused" := by
  exact fetch_failure_amended.1 (fun _ => Except.error "connection refused")
    (fun _ => Except.ok "S") "u" "connection refused" rfl

/-! ## Claim C2 -/

theorem strData_append (a b : String) : (a ++ b).data = a.data ++ b.data := rfl

theorem str_ext {a b : String} (h : a.data = b.data) : a = b := by
  cases a
  cases b
  exact congrArg String.mk h

theorem explain_prompt_inj {x y : String}
    (h : explain_prompt x = explain_prompt y) : x = y := by
  have hd : ("Explain the changes:\n" : String).data ++ x.data =
      ("Explain the changes:\n" : String).data ++ y.data := by
    have hc := congrArg String.data h
    simpa [explain_prompt, strData_append] using hc
  exact str_ext (List.append_cancel_left hd)

theorem review_ne_explain (x y : String) : review_prompt x ≠ explain_prompt y := by
  intro h
  have hd := congrArg (fun s : String => s.data.head?) h
  simp only [review_prompt, explain_prompt, strData_append, List.head?_append] at hd
  rw [show ("Review this Apex diff:\n" : String).data.head? = some 'R' from rfl,
    show ("Explain the changes:\n" : String).data.head? = some 'E' from rfl,
    Option.or_some, Option.or_some] at hd
  exact absurd hd (by decide)

theorem business_ne_explain (x y : String) : business_prompt x ≠ explain_prompt y := by
  intro h
  have hd := congrArg (fun s : String => s.data.head?) h
  simp only [business_prompt, explain_prompt, strData_append, List.head?_append] at hd
  rw [show ("Business summary of changes:\n" : String).data.head? = some 'B' from rfl,
    show ("Explain the changes:\n" : String).data.head? = some 'E' from rfl,
    Option.or_some, Option.or_some] at hd
  exact absurd hd (by decide)

theorem enrich_file_agree {llm1 llm2 : LLM} {f : FileResult} (d0 : String)
    (hne : f.diff ≠ d0)
    (hagree : ∀ p, p ≠ explain_prompt d0 → llm1 p = llm2 p) :
    enrich_file llm1 f = enrich_file llm2 f := by
  have h1 : llm1 (explain_prompt f.diff) = llm2 (explain_prompt f.diff) :=
    hagree _ (fun hcon => hne (explain_prompt_inj hcon))
  have h2 : llm1 (review_prompt f.diff) = llm2 (review_prompt f.diff) :=
    hagree _ (review_ne_explain _ _)
  have h3 : llm1 (business_prompt f.diff) = llm2 (business_prompt f.diff) :=
    hagree _ (business_ne_explain _ _)
  unfold enrich_file call_llm_safe
  rw [h1, h2, h3]

/-- Claim C2: a backend failure never escapes call_llm_safe: the failed
call returns the diagnostic payload "Error: " ++ str(e); the pipeline
completes whenever the fetch succeeded, whatever the backend does; and
when the backend fails exactly on one file's explanation prompt (and
answers every other prompt as in a successful run, with that file's diff
distinct from the other files' diffs so no other record issues the same
prompt), only that file's explanation field becomes the diagnostic string:
every other record is field-for-field identical to the successful run,
and the affected record keeps the successful run's reviewComments and
businessSummary (in the successful run the explanation is the stripped
backend reply). -/
theorem llm_failure_contained :
    (∀ (llm : LLM) (p e : String), llm p = Except.error e →
        call_llm_safe llm p = "Error: " ++ e) ∧
    (∀ (http : Http) (llm : LLM) (url : String) (r : HttpResp),
        http (url ++ ".diff") = Except.ok r →
        ∃ s, run_pipeline http llm url = Except.ok s) ∧
    (∀ (llm1 llm2 : LLM) (st : PRState) (i : Nat) (hi : i < st.files.length)
        (e t : String),
        llm1 (explain_prompt (st.files.get ⟨i, hi⟩).diff) = Except.error e →
        llm2 (explain_prompt (st.files.get ⟨i, hi⟩).diff) = Except.ok t →
        (∀ p, p ≠ explain_prompt (st.files.get ⟨i, hi⟩).diff → llm1 p = llm2 p) →
        (∀ (j : Nat) (hj : j < st.files.length), j ≠ i →
            (st.files.get ⟨j, hj⟩).diff ≠ (st.files.get ⟨i, hi⟩).diff) →
        (∀ j : Nat, j ≠ i →
            (process_files llm1 st).files[j]? = (process_files llm2 st).files[j]?) ∧
          (process_files llm1 st).files[i]? =
            ((process_files llm2 st).files[i]?).map
              (fun f => { f with explanation := "Error: " ++ e }) ∧
          ((process_files llm2 st).files[i]?).map (fun f => f.explanation) =
            some (pyStrip t)) := by
  refine ⟨?_, ?_, ?_⟩
  · intro llm p e h
    unfold call_llm_safe
    rw [h]
  · intro http llm url r h
    unfold run_pipeline fetch_pr_diff init_state
    rw [show ({ pr_url := url, diff := "", files := [], dev_summary := "", business_summary := "" } : PRState).pr_url = url from rfl, h]
    exact ⟨_, rfl⟩
  · intro llm1 llm2 st i hi e t hfail hok hagree hdist
    have hmap : ∀ llm : LLM,
        (process_files llm st).files = st.files.map (enrich_file llm) := fun _ => rfl
    simp only [List.get_eq_getElem] at hfail hok hagree hdist
    refine ⟨?_, ?_, ?_⟩
    · intro j hne
      rw [hmap llm1, hmap llm2, List.getElem?_map, List.getElem?_map]
      cases hj : st.files[j]? with
      | none => rfl
      | some fj =>
        obtain ⟨hjlt, hjeq⟩ := List.getElem?_eq_some_iff.mp hj
        have hdiffne : fj.diff ≠ st.files[i].diff := by
          rw [← hjeq]
          exact hdist j hjlt hne
        simp only [Option.map_some']
        rw [enrich_file_agree (st.files[i].diff) hdiffne hagree]
    · rw [hmap llm1, hmap llm2, List.getElem?_map, List.getElem?_map,
        List.getElem?_eq_getElem hi]
      simp only [Option.map_some']
      have h2 : llm1 (review_prompt st.files[i].diff) =
          llm2 (review_prompt st.files[i].diff) :=
        hagree _ (review_ne_explain _ _)
      have h3 : llm1 (business_prompt st.files[i].diff) =
          llm2 (business_prompt st.files[i].diff) :=
        hagree _ (business_ne_explain _ _)
      unfold enrich_file call_llm_safe
      rw [hfail, hok, h2, h3]
    · rw [hmap llm2, List.getElem?_map, List.getElem?_eq_getElem hi]
      simp only [Option.map_some', Option.some.injEq]
      show call_llm_safe llm2 (explain_prompt st.files[i].diff) = pyStrip t
      unfold call_llm_safe
      rw [hok]

/-- Claim C2, witness: with one file of diff "+z", a backend failing only
on that file's explanation prompt produces the diagnostic explanation
while the rest matches the successful run. -/
theorem llm_failure_contained_witness :
    ((process_files
        (fun p => if p = "Explain the changes:\n+z" then Except.error "boom"
          else Except.ok "fine")
        { pr_url := ""
          diff := ""
          files := [{ filename := "a"
                      diff := "+z"
                      is_apex := false
                      explanation := ""
                      review_comments := ""
                      business_summary := "" }]
          dev_summary := ""
          business_summary := "" }).files[0]?).map (fun f => f.explanation) =
      some "Error: boom" := by
  have hag : ∀ p, p ≠ explain_prompt
      (({ pr_url := ""
          diff := ""
          files := [{ filename := "a"
                      diff := "+z"
                      is_apex := false
                      explanation := ""
                      review_comments := ""
                      business_summary := "" }]
          dev_summary := ""
          business_summary := "" } : PRState).files.get ⟨0, by decide⟩).diff →
      (fun p => if p = "Explain the changes:\n+z" then Except.error "boom"
        else Except.ok "fine") p = (fun _ => (Except.ok "fine" : Except String String)) p := by
    intro p hp
    have hlit : explain_prompt
        (({ pr_url := ""
            diff := ""
            files := [{ filename := "a"
                        diff := "+z"
                        is_apex := false
                        explanation := ""
                        review_comments := ""
                        business_summary := "" }]
            dev_summary := ""
            business_summary := "" } : PRState).files.get ⟨0, by decide⟩).diff =
        "Explain the changes:\n+z" := by decide
    show (if p = "Explain the changes:\n+z" then Except.error "boom"
      else Except.ok "fine") = Except.ok "fine"
    exact if_neg (fun hcon => hp (hcon.trans hlit.symm))
  have h := (llm_failure_contained.2.2
    (fun p => if p = "Explain the changes:\n+z" then Except.error "boom"
      else Except.ok "fine")
    (fun _ => Except.ok "fine")
    { pr_url := ""
      diff := ""
      files := [{ filename := "a"
                  diff := "+z"
                  is_apex := false
                  explanation := ""
                  review_comments := ""
                  business_summary := "" }]
      dev_summary := ""
      business_summary := "" } 0 (by decide) "boom" "fine"
    (by rfl) (by rfl) hag
    (by intro j hj hne; exfalso; simp at hj; omega)).2.1
  rw [h]
  decide
